import Mathlib

/-!
# Verification development for `cnrancher/image-tools` (hangar)

Shallow embedding of

* `pkg/hangar/imagelist/imagelist.go` : the image-list line-format detector, and
* `pkg/hangar/saver.go` : the save pipeline (dispatcher, save worker with the
  shared-blob dedup step, validator),

followed by theorems about them.

Go strings are modelled by `String`; the string functions work on the list of
Unicode code points (`String.data`), which is what the Go functions see on
valid UTF-8 input.
-/

set_option autoImplicit false

namespace Hangar

/-! ## Go standard library: `unicode`, `strings`, `path` -/

/-- Go `unicode.IsSpace`: the Latin-1 cases listed in its switch statement and
the remaining code points of the Unicode `White_Space` table. -/
def isSpace (c : Char) : Bool :=
  let n := c.toNat
  (9 ≤ n && n ≤ 13) || n == 32 || n == 133 || n == 160 || n == 5760 ||
  (8192 ≤ n && n ≤ 8202) || n == 8232 || n == 8233 || n == 8239 ||
  n == 8287 || n == 12288

/-- Go `strings.TrimSpace`, on code points: leading and trailing white space
(as defined by `unicode.IsSpace`) removed. -/
def TrimSpace (s : List Char) : List Char :=
  ((s.dropWhile isSpace).reverse.dropWhile isSpace).reverse

/-- Go `strings.Split(s, sep)` for a one-character separator: the pieces
between consecutive separators; `n` separators give `n + 1` pieces, and the
empty string gives one empty piece. -/
def Split (sep : Char) : List Char → List (List Char)
  | [] => [[]]
  | c :: cs =>
    if c = sep then [] :: Split sep cs
    else
      match Split sep cs with
      | [] => [[c]]
      | piece :: rest => (c :: piece) :: rest

/-- Go `strings.Contains(s, sep)` for a one-character `sep`. -/
def Contains (s : List Char) (sep : Char) : Bool :=
  s.any (fun c => c == sep)

/-- Go `strings.FieldsFunc`: the maximal runs of characters that do not satisfy
the separator predicate `p`, in order.  `cur` holds the run being read, in
reverse. -/
def fieldsAux (p : Char → Bool) : List Char → List Char → List (List Char)
  | [], cur => if cur.isEmpty then [] else [cur.reverse]
  | c :: cs, cur =>
    if p c then
      if cur.isEmpty then fieldsAux p cs [] else cur.reverse :: fieldsAux p cs []
    else fieldsAux p cs (c :: cur)

/-- The non-empty tokens of `s` separated by runs of characters satisfying `p`. -/
def FieldsFunc (p : Char → Bool) (s : List Char) : List (List Char) :=
  fieldsAux p s []

/-! ## `pkg/hangar/imagelist` -/

namespace imagelist

/-- Go `type ListType string`. -/
abbrev ListType := String

/-- TypeUnknow is the undefined format. -/
def TypeUnknow : ListType := ""

/-- TypeMirror: `[SOURCE_IMAGE] [DEST_IMAGE] [TAG]`. -/
def TypeMirror : ListType := "mirror"

/-- TypeDefault: `[REGISTRY]/[PROJECT]/[NAME]:[TAG]` or
`[REGISTRY]/[PROJECT]/[NAME]@sha256:[DIGEST]`. -/
def TypeDefault : ListType := "default"

/-- The loop of `getMirrorSpec`: the pieces of `v` with `len(s) != 0`, in order. -/
def mirrorLoop (v : List (List Char)) : List (List Char) :=
  v.foldl (fun spec s => if s.length = 0 then spec else spec ++ [s]) []

/-- Go `getMirrorSpec`: trim, split on the space character, keep the non-empty
pieces; `(spec, true)` when exactly three are left, `(nil, false)` otherwise. -/
def getMirrorSpec (line : String) : List String × Bool :=
  let line := TrimSpace line.data
  let v := Split ' ' line
  let spec := mirrorLoop v
  if spec.length ≠ 3 then ([], false) else (spec.map String.mk, true)

/-- The loop of `isDefaultFormat`: the pieces of `v` that are non-empty and
hold no space character. -/
def defaultLoop (v : List (List Char)) : List (List Char) :=
  v.foldl (fun spec s =>
    if s.length = 0 then spec
    else if Contains s ' ' then spec
    else spec ++ [s]) []

/-- Go `isDefaultFormat`: trim, split on `/`, skip the pieces that are empty or
hold a space; true when at least one piece is left. -/
def isDefaultFormat (line : String) : Bool :=
  let line := TrimSpace line.data
  let v := Split '/' line
  let spec := defaultLoop v
  decide (spec.length ≥ 1)

/-- Go `IsMirrorFormat`. -/
def IsMirrorFormat (line : String) : Bool :=
  (getMirrorSpec line).2

/-- Go `GetMirrorSpec`. -/
def GetMirrorSpec (line : String) : List String × Bool :=
  getMirrorSpec line

/-- Go `IsDefaultFormat`. -/
def IsDefaultFormat (line : String) : Bool :=
  isDefaultFormat line

/-- Go `Detect`. -/
def Detect (line : String) : ListType :=
  if (getMirrorSpec line).2 then TypeMirror
  else if isDefaultFormat line then TypeDefault
  else TypeUnknow

/-- The tokens of a line in the sense of the image-list format description:
the non-empty words separated by white space of any kind (as Go
`strings.Fields` computes them). -/
def whitespaceTokens (line : String) : List String :=
  (FieldsFunc isSpace line.data).map String.mk

/-- The tokens of a line when only the space character U+0020 separates them:
the line is trimmed of surrounding white space first, and any other white-space
character inside it belongs to a token. -/
def spaceTokens (line : String) : List String :=
  (FieldsFunc (fun c => c == ' ') (TrimSpace line.data)).map String.mk

end imagelist

/-! ## go-digest and `path` -/

namespace digest

/-- Go `digest.Digest` (`type Digest string`): `<algorithm>:<encoded>`; the empty
string is the zero value (used for "no config"). -/
abbrev Digest := String

/-- Go `Digest.Algorithm`: the part before the first `:`.  (go-digest panics on
a digest without separator; the model then returns the whole string.) -/
def Algorithm (d : Digest) : String :=
  String.mk (d.data.takeWhile (fun c => c != ':'))

/-- Go `Digest.Encoded`: the part after the first `:`.  (go-digest panics on a
digest without separator; the model then returns the empty string.) -/
def Encoded (d : Digest) : String :=
  String.mk ((d.data.dropWhile (fun c => c != ':')).drop 1)

end digest

namespace path

/-- One element of the lexical processing of Go `path.Clean`; `out` is the
stack of path elements kept so far, the last one first. -/
def cleanStep (rooted : Bool) (out : List (List Char)) (name : List Char) :
    List (List Char) :=
  if name = [] ∨ name = ['.'] then out
  else if name = ['.', '.'] then
    match out with
    | top :: rest => if top = ['.', '.'] then name :: out else rest
    | [] => if rooted then [] else [name]
  else name :: out

/-- Go `path.Clean`: multiple slashes collapsed, `.` elements dropped, inner
`..` elements resolved, `..` at the root dropped; the empty path is `.`. -/
def Clean (p : List Char) : List Char :=
  if p = [] then ['.']
  else
    let rooted := p.head? == some '/'
    let out := (Split '/' p).foldl (cleanStep rooted) []
    let body := List.intercalate ['/'] out.reverse
    if rooted then '/' :: body
    else if body = [] then ['.'] else body

/-- The buffer loop of Go `path.Join`: empty leading elements are skipped, the
others are joined by `/`. -/
def joinBuf (elem : List String) : List Char :=
  elem.foldl (fun buf e =>
    if buf.length > 0 ∨ e ≠ "" then
      (if buf.length > 0 then buf ++ ['/'] else buf) ++ e.data
    else buf) []

/-- Go `path.Join`. -/
def Join (elem : List String) : String :=
  if (elem.map String.length).sum = 0 then ""
  else String.mk (Clean (joinBuf elem))

end path

/-! ## Collaborators of the save pipeline (`archive`, `source`, `destination`,
`utils`, `common`)

The pipeline calls into packages whose code is not part of the two files
embedded here.  Their results are inputs of the model: a handle is the record
of what its methods return for the job at hand. -/

/-- A Go error value: the sentinel `utils.ErrNoAvailableImage`, an error
produced by an external call, `fmt.Errorf` with and without `%w`, and the job
envelope built by `NewError`. -/
inductive Err where
  | ErrNoAvailableImage
  | external (msg : String)
  | errorf (msg : String)
  | wrap (msg : String) (cause : Err)
  | job (id : Nat) (cause : Err)
  deriving DecidableEq, Repr

/-- Go `error`: `none` is `nil`. -/
abbrev error := Option Err

/-- Go `errors.Is(err, utils.ErrNoAvailableImage)`: the chain of wrapped causes
reaches the sentinel. -/
def Err.IsNoAvailableImage : Err → Bool
  | .ErrNoAvailableImage => true
  | .wrap _ cause => cause.IsNoAvailableImage
  | .job _ cause => cause.IsNoAvailableImage
  | _ => false

namespace archive

/-- The fields of `archive.ImageSpec` (one platform entry of a copied image)
that the save worker reads. -/
structure ImageSpec where
  Layers : List digest.Digest
  Digest : digest.Digest
  Config : digest.Digest
  deriving DecidableEq, Repr

/-- The copied-image descriptor `archive.Image`: its platform entries. -/
structure Image where
  Images : List ImageSpec
  deriving DecidableEq, Repr

/-- Modelled from the spec: `archive.Index` (its code is not among the embedded
files), an append-only ordered sequence of copied-image descriptors. -/
structure Index where
  List : List Image
  deriving DecidableEq, Repr

/-- Modelled from the spec: `archive.NewIndex`, the index without entries. -/
def NewIndex : Index := ⟨[]⟩

/-- Modelled from the spec: `Index.Append(descriptor)` adds one entry at the end. -/
def Index.Append (i : Index) (image : Image) : Index := ⟨i.List ++ [image]⟩

end archive

namespace source

/-- A source handle: what `Init`, `Copy`, `GetCopiedImage` and `ImageBySet`
return for it. -/
structure Source where
  Init : error
  Copy : error
  GetCopiedImage : archive.Image
  ImageBySet : archive.Image
  deriving DecidableEq, Repr

end source

namespace destination

/-- A destination handle: the directory and shared-blob directory it was
constructed with, and what `ReferenceNameWithoutTransport` and `Init` return. -/
structure Destination where
  Directory : String
  SharedBlobDir : String
  ReferenceNameWithoutTransport : String
  Init : error
  deriving DecidableEq, Repr

end destination

/-! ## `pkg/hangar/saver.go` -/

/-- The deduplication ledger `layersSet map[digest.Digest]bool`: the value the
map lookup `layersSet[d]` returns (false for a missing key). -/
abbrev Ledger := digest.Digest → Bool

/-- Go `layersSet[d] = true`. -/
def Ledger.set (L : Ledger) (d : digest.Digest) : Ledger :=
  fun x => if x = d then true else L x

/-- Go `make(map[digest.Digest]bool)`. -/
def Ledger.empty : Ledger := fun _ => false

/-- What the pipeline does to the outside world, in order: calls of
`os.RemoveAll`, of the archive writer (`Write`, `WriteIndex`, `Close`, each with
the error it returned), of `index.Append`, and of the error collector. -/
inductive Event where
  | RemoveAll (path : String)
  | Write (dir : String) (err : error)
  | Append (image : archive.Image)
  | WriteIndex (index : archive.Index) (err : error)
  | Close (err : error)
  | handleError (err : Err)
  deriving DecidableEq, Repr

/-- Go `saveObject`, the object sent to the worker pool.  `write` is what
`s.aw.Write` returns when the worker calls it for this job. -/
structure saveObject where
  image : String
  source : source.Source
  destination : Option destination.Destination
  timeout : Nat
  id : Nat
  write : error
  deriving DecidableEq, Repr

/-- The `any` payload a worker receives from the pool. -/
inductive Payload where
  | nil
  | other
  | object (obj : saveObject)
  deriving DecidableEq, Repr

/-- Go `SaverOpts` (the fields of `CommonOpts` play no role in the model). -/
structure SaverOpts where
  SourceRegistry : String
  SourceProject : String
  SharedBlobDirPath : String
  ArchiveName : String
  deriving DecidableEq, Repr

/-- Modelled from the spec: the part of `common` (its code is not among the
embedded files) that the saver reads back, the failure ledger: the set of raw
input lines whose jobs failed. -/
structure common where
  failedImageSet : List String
  deriving DecidableEq, Repr

/-- Go `Saver`.  `trace` is the model's record of the external calls made so
far; the images of `common` come with the inputs of `copy` and `validate`. -/
structure Saver where
  common : common
  index : archive.Index
  layersSet : Ledger
  SourceRegistry : String
  SourceProject : String
  SharedBlobDirPath : String
  ArchiveName : String
  trace : List Event

/-- Go `NewSaver`; `newCommon` is what `newCommon(&o.CommonOpts)` returns. -/
def NewSaver (SharedBlobDir : String) (o : SaverOpts) (newCommon : Except Err common) :
    Except Err Saver :=
  let SharedBlobDirPath :=
    if o.SharedBlobDirPath = "" then SharedBlobDir else o.SharedBlobDirPath
  match newCommon with
  | .error err => .error err
  | .ok c => .ok {
      common := c
      index := archive.NewIndex
      layersSet := Ledger.empty
      SourceRegistry := o.SourceRegistry
      SourceProject := o.SourceProject
      SharedBlobDirPath := SharedBlobDirPath
      ArchiveName := o.ArchiveName
      trace := [] }

/-- Modelled from the spec: `common.recordFailedImage` puts the image into the
failure ledger (a set: an image already in it is not added again). -/
def Saver.recordFailedImage (s : Saver) (image : String) : Saver :=
  { s with common := ⟨if image ∈ s.common.failedImageSet then s.common.failedImageSet
                      else s.common.failedImageSet ++ [image]⟩ }

/-- One external call, recorded. -/
def Saver.emit (s : Saver) (e : Event) : Saver :=
  { s with trace := s.trace ++ [e] }

/-- Modelled from the spec: `common.handleError` hands the error to the error
collector, the sole route to user-visible output. -/
def Saver.handleError (s : Saver) (err : Err) : Saver :=
  s.emit (.handleError err)

/-- The state of the dedup loops of `Saver.worker`: the deletion list and the
ledger. -/
structure DedupState where
  filesToDelete : List String
  layersSet : Ledger

/-- Body of `for _, layer := range image.Layers`. -/
def dedupLayer (SharedBlobDir shareBlobsDir : String) (st : DedupState)
    (layer : digest.Digest) : DedupState :=
  if st.layersSet layer then
    let d := path.Join [shareBlobsDir, SharedBlobDir, digest.Algorithm layer,
      digest.Encoded layer]
    { st with filesToDelete := st.filesToDelete ++ [d] }
  else
    { st with layersSet := st.layersSet.set layer }

/-- Body of `for _, image := range copiedImage.Images`. -/
def dedupImage (SharedBlobDir shareBlobsDir : String) (st : DedupState)
    (image : archive.ImageSpec) : DedupState :=
  let st := image.Layers.foldl (dedupLayer SharedBlobDir shareBlobsDir) st
  let st :=
    if st.layersSet image.Digest then
      -- The image already exists in archive, delete all resources.
      let d1 := path.Join [shareBlobsDir, SharedBlobDir, digest.Algorithm image.Digest,
        digest.Encoded image.Digest]
      let d2 := path.Join [shareBlobsDir, digest.Encoded image.Digest]
      { st with filesToDelete := (st.filesToDelete ++ [d1]) ++ [d2] }
    else
      { st with layersSet := st.layersSet.set image.Digest }
  if image.Config ≠ "" ∧ st.layersSet image.Config = true then
    let d := path.Join [shareBlobsDir, SharedBlobDir, digest.Algorithm image.Config,
      digest.Encoded image.Config]
    { st with filesToDelete := st.filesToDelete ++ [d] }
  else if image.Config ≠ "" then
    { st with layersSet := st.layersSet.set image.Config }
  else st

/-- The dedup step of `Saver.worker` (record image layers and remove duplicated
layers): from the ledger before the step, the deletion list `filesToDelete`
and the ledger after it.  `SharedBlobDir` is the constant
`archive.SharedBlobDir`. -/
def dedup (SharedBlobDir shareBlobsDir : String) (layersSet : Ledger)
    (copiedImage : archive.Image) : DedupState :=
  copiedImage.Images.foldl (dedupImage SharedBlobDir shareBlobsDir) ⟨[], layersSet⟩

/-- The deferred function of `Saver.worker`, run when the worker returns with
`err`: a failure is reported and recorded, and the cache directory is deleted. -/
def workerExit (s : Saver) (obj : saveObject) (dest : destination.Destination)
    (err : error) : Saver :=
  let s :=
    match err with
    | some e => (s.handleError (.job obj.id e)).recordFailedImage obj.image
    | none => s
  s.emit (.RemoveAll dest.Directory)

/-- The critical section of `Saver.worker` (from `s.awMutex.Lock()` on): dedup,
removal of the duplicated files, archive write, index append. -/
def workerArchive (SharedBlobDir : String) (s : Saver) (obj : saveObject)
    (dest : destination.Destination) : Saver :=
  let shareBlobsDir := dest.ReferenceNameWithoutTransport
  let copiedImage := obj.source.GetCopiedImage
  let st := dedup SharedBlobDir shareBlobsDir s.layersSet copiedImage
  let s := { s with layersSet := st.layersSet }
  let s := st.filesToDelete.foldl (fun s dir => s.emit (.RemoveAll dir)) s
  let s := s.emit (.Write dest.ReferenceNameWithoutTransport obj.write)
  match obj.write with
  | some err => workerExit s obj dest (some (.wrap "failed to write" err))
  | none =>
    let s := { s with index := s.index.Append copiedImage }
    workerExit (s.emit (.Append copiedImage)) obj dest none

/-- Go `Saver.worker`.  The jobs of the dispatcher all carry a destination; on
a job without one the Go worker panics on the nil handle, and the model leaves
the saver as it is. -/
def Saver.worker (SharedBlobDir : String) (s : Saver) (o : Payload) : Saver :=
  match o with
  | .nil => s
  | .other => s
  | .object obj =>
    match obj.destination with
    | none => s
    | some dest =>
      match obj.source.Init with
      | some err => workerExit s obj dest (some (.wrap "failed to init source" err))
      | none =>
        match dest.Init with
        | some err => workerExit s obj dest (some (.wrap "failed to init destination" err))
        | none =>
          match obj.source.Copy with
          | some err =>
            if err.IsNoAvailableImage then
              -- logged as "Skip save image"; err = nil, and the worker goes on
              workerArchive SharedBlobDir s obj dest
            else workerExit s obj dest (some (.wrap "failed to copy" err))
          | none => workerArchive SharedBlobDir s obj dest

/-- What the external calls of one iteration of the dispatcher loop of
`Saver.copy` return for an image of `s.common.images`: `source.NewSource`,
`newSaveCacheDir` (the directory made by `os.MkdirTemp`),
`destination.NewDestination` and the methods of the handle it builds,
`handleObject` (the hand-over to the worker pool) and, for the worker,
`s.aw.Write`. -/
structure imageInput where
  image : String
  NewSource : Except Err source.Source
  newSaveCacheDir : Except Err String
  NewDestination : error
  ReferenceNameWithoutTransport : String
  destinationInit : error
  handleObject : error
  write : error
  deriving Repr

/-- Body of `for i, img := range s.common.images` in `Saver.copy`.  A job
handed to the pool is run by `worker` on the spot: the model follows the jobs
in the order in which they are served. -/
def copyImage (SharedBlobDir : String) (s : Saver) (i : Nat) (inp : imageInput) : Saver :=
  match inp.NewSource with
  | .error err =>
    (s.handleError (.wrap "failed to init source image" err)).recordFailedImage inp.image
  | .ok src =>
    match inp.newSaveCacheDir with
    | .error err =>
      let s := s.handleError (.wrap "failed to create cache dir" (.wrap "os.MkdirTemp" err))
      (s.emit (.RemoveAll "")).recordFailedImage inp.image
    | .ok cd =>
      let sd := path.Join [cd, s.SharedBlobDirPath]
      match inp.NewDestination with
      | some err =>
        let s := s.handleError (.wrap "failed to init dest image" err)
        (s.emit (.RemoveAll cd)).recordFailedImage inp.image
      | none =>
        let dest : destination.Destination := {
          Directory := cd
          SharedBlobDir := sd
          ReferenceNameWithoutTransport := inp.ReferenceNameWithoutTransport
          Init := inp.destinationInit }
        let object : saveObject := {
          id := i + 1
          image := inp.image
          source := src
          destination := some dest
          timeout := 0
          write := inp.write }
        match inp.handleObject with
        | some _ => s.emit (.RemoveAll cd)
        | none => Saver.worker SharedBlobDir s (.object object)

/-- The dispatcher loop of `Saver.copy`, from position `i` on. -/
def copyLoop (SharedBlobDir : String) : Saver → Nat → List imageInput → Saver
  | s, _, [] => s
  | s, i, inp :: rest => copyLoop SharedBlobDir (copyImage SharedBlobDir s i inp) (i + 1) rest

/-- Go `Saver.copy`: the dispatcher loop, then (after `waitWorkers`) the index
write and the close of the archive writer, whose errors are only logged. -/
def Saver.copy (SharedBlobDir : String) (s : Saver) (images : List imageInput)
    (writeIndex close : error) : Saver :=
  let s := copyLoop SharedBlobDir s 0 images
  let s := s.emit (.WriteIndex s.index writeIndex)
  s.emit (.Close close)

/-- Go `Saver.Run`; `NewWriter` is the error `archive.NewWriter` returns. -/
def Saver.Run (SharedBlobDir : String) (s : Saver) (NewWriter : error)
    (images : List imageInput) (writeIndex close : error) : Saver × error :=
  match NewWriter with
  | some err => (s, some (.wrap "failed to create archive" err))
  | none =>
    let s := s.copy SharedBlobDir images writeIndex close
    if s.common.failedImageSet.length ≠ 0 then
      (s, some (.errorf "some images failed to save"))
    else (s, none)

/-- What the external calls of one iteration of the loop of `Saver.validate`
return for an image: `source.NewSource` and `handleObject`. -/
structure validateInput where
  image : String
  NewSource : Except Err source.Source
  handleObject : error
  deriving Repr

/-- Go `Saver.validateWorker`; `Has` is `archive.Index.Has`. -/
def Saver.validateWorker (Has : archive.Index → archive.Image → Bool) (s : Saver)
    (o : Payload) : Saver :=
  match o with
  | .nil => s
  | .other => s
  | .object obj =>
    match obj.source.Init with
    | some err => (s.handleError (.job obj.id err)).recordFailedImage obj.image
    | none =>
      let image := obj.source.ImageBySet
      if !Has s.index image then
        (s.handleError (.job obj.id (.errorf "FAILED"))).recordFailedImage obj.image
      else s

/-- Body of `for i, img := range s.common.images` in `Saver.validate`; the
result of `handleObject` is discarded there. -/
def validateImage (Has : archive.Index → archive.Image → Bool) (s : Saver) (i : Nat)
    (inp : validateInput) : Saver :=
  match inp.NewSource with
  | .error err =>
    (s.handleError (.wrap "failed to init source image" err)).recordFailedImage inp.image
  | .ok src =>
    let object : saveObject := {
      id := i + 1
      image := inp.image
      source := src
      destination := none
      timeout := 0
      write := none }
    match inp.handleObject with
    | some _ => s
    | none => Saver.validateWorker Has s (.object object)

/-- Go `Saver.validate`, from position `i` on. -/
def validateLoop (Has : archive.Index → archive.Image → Bool) :
    Saver → Nat → List validateInput → Saver
  | s, _, [] => s
  | s, i, inp :: rest => validateLoop Has (validateImage Has s i inp) (i + 1) rest

/-- Go `Saver.validate`. -/
def Saver.validate (Has : archive.Index → archive.Image → Bool) (s : Saver)
    (images : List validateInput) : Saver :=
  validateLoop Has s 0 images

/-- What the archive reader returns to `Saver.Validate`: the errors of
`archive.NewReader`, `ar.Index()` and `ar.Close()`, and the index that
`s.index.Unmarshal(b)` loads (or its error). -/
structure readerInput where
  NewReader : error
  Index : error
  Close : error
  Unmarshal : Except Err archive.Index
  deriving Repr

/-- Go `Saver.Validate`. -/
def Saver.Validate (Has : archive.Index → archive.Image → Bool) (s : Saver)
    (ar : readerInput) (images : List validateInput) : Saver × error :=
  match ar.NewReader with
  | some err => (s, some (.wrap "failed to create archive reader" err))
  | none =>
    match ar.Index with
    | some err => (s, some (.wrap "failed to read archive index" err))
    | none =>
      match ar.Unmarshal with
      | .error err => (s, some (.wrap "failed to read archive index" err))
      | .ok index =>
        let s := { s with index := index }
        let s := s.validate Has images
        if s.common.failedImageSet.length ≠ 0 then
          (s, some (.errorf "some images failed to validate"))
        else (s, none)

/-! ## Specification-side definitions -/

/-- The shared-blob path `<staging>/<shared-blob-dir>/<algo>/<encoded>` of a
digest inside a staging directory. -/
def sharedBlobPath (sharedBlobDir staging : String) (d : digest.Digest) : String :=
  path.Join [staging, sharedBlobDir, digest.Algorithm d, digest.Encoded d]

/-- The role in which a digest occurs in a platform entry. -/
inductive BlobKind where
  | layer
  | manifest
  | config
  deriving DecidableEq, Repr

/-- The digests of one platform entry in the order of the dedup step: every
layer digest in layer order, then the manifest digest, then the config digest
when it is non-empty. -/
def entryDigests (e : archive.ImageSpec) : List (BlobKind × digest.Digest) :=
  e.Layers.map (fun d => (BlobKind.layer, d)) ++ [(BlobKind.manifest, e.Digest)] ++
    (if e.Config ≠ "" then [(BlobKind.config, e.Config)] else [])

/-- The digests of a copied-image descriptor, platform entries in order. -/
def descriptorDigests (image : archive.Image) : List (BlobKind × digest.Digest) :=
  image.Images.flatMap entryDigests

/-- One step of the reference fold: a digest already in the running ledger
appends its shared-blob path to the deletion list (the manifest digest: that
path followed by `<staging>/<encoded>`); a digest not in it is inserted and
appends nothing. -/
def referenceStep (sharedBlobDir staging : String) (acc : List String × Ledger)
    (kd : BlobKind × digest.Digest) : List String × Ledger :=
  if acc.2 kd.2 then
    (acc.1 ++ sharedBlobPath sharedBlobDir staging kd.2 ::
      (if kd.1 = BlobKind.manifest then [path.Join [staging, digest.Encoded kd.2]] else []),
     acc.2)
  else (acc.1, acc.2.set kd.2)

/-- The reference fold of the dedup step over a descriptor: the deletion list
and the ledger after the step. -/
def referenceDedup (sharedBlobDir staging : String) (L : Ledger) (image : archive.Image) :
    List String × Ledger :=
  (descriptorDigests image).foldl (referenceStep sharedBlobDir staging) ([], L)

/-- The digest `d` occurs in the descriptor: as a layer, as the manifest
digest, or as the non-empty config digest of one of its platform entries. -/
def occursIn (d : digest.Digest) (image : archive.Image) : Bool :=
  image.Images.any (fun e =>
    decide (d ∈ e.Layers) || decide (d = e.Digest) || (decide (e.Config ≠ "") && decide (d = e.Config)))

/-- A job retains the digest `d`: `d` occurs in its descriptor and the shared-blob
path of `d` is not in the job's deletion list. -/
def retains (sharedBlobDir staging : String) (filesToDelete : List String)
    (image : archive.Image) (d : digest.Digest) : Bool :=
  occursIn d image && decide (sharedBlobPath sharedBlobDir staging d ∉ filesToDelete)

/-- Job number `i` of a sequence of jobs (staging directory and copied-image
descriptor) retains `d`, when the dedup step of the save worker processes the
jobs one after another from the ledger `L`. -/
def retainsAt (SharedBlobDir : String) :
    Ledger → List (String × archive.Image) → Nat → digest.Digest → Bool
  | _, [], _, _ => false
  | L, job :: _, 0, d =>
    retains SharedBlobDir job.1 (dedup SharedBlobDir job.1 L job.2).filesToDelete job.2 d
  | L, job :: rest, i + 1, d =>
    retainsAt SharedBlobDir (dedup SharedBlobDir job.1 L job.2).layersSet rest i d

/-- The two components of the state of the dedup loops. -/
def DedupState.toPair (st : DedupState) : List String × Ledger :=
  (st.filesToDelete, st.layersSet)

/-- The event is a call of the archive writer's `Write` that returned success. -/
def Event.isSuccessfulWrite : Event → Bool
  | .Write _ none => true
  | _ => false

/-- The event is a call of the archive writer's `Write`. -/
def Event.isWrite : Event → Bool
  | .Write _ _ => true
  | _ => false

/-- The event is a call of `index.Append`. -/
def Event.isAppend : Event → Bool
  | .Append _ => true
  | _ => false

/-- Number of successful archive writes in a trace. -/
def successfulWrites (t : List Event) : Nat := t.countP Event.isSuccessfulWrite

/-- Number of index appends in a trace. -/
def appends (t : List Event) : Nat := t.countP Event.isAppend

/-- Index consistency between two states of a run: from `s0` to `s` the trace
grew by events among which the index appends are as many as the successful
archive writes, and the index grew by that number of entries. -/
def Consistent (s0 s : Saver) : Prop :=
  ∃ evs, s.trace = s0.trace ++ evs ∧ successfulWrites evs = appends evs ∧
    s.index.List.length = s0.index.List.length + appends evs

/-- The job fails at one of the stages of the save worker: source init,
destination init, copy (with an error other than the recoverable skip) or
archive write. -/
def jobFails (obj : saveObject) (dest : destination.Destination) : Bool :=
  obj.source.Init.isSome || dest.Init.isSome ||
    (match obj.source.Copy with
     | some err => !err.IsNoAvailableImage
     | none => false) ||
    obj.write.isSome

/-- The manifest query of the image (`source.ImageBySet` on its source handle)
misses the index: `index.Has` returns false. -/
def queryMisses (Has : archive.Index → archive.Image → Bool) (index : archive.Index)
    (inp : validateInput) : Bool :=
  match inp.NewSource with
  | .ok src => !Has index src.ImageBySet
  | .error _ => false

/-- The image fails validation: its source handle cannot be constructed, or
the image is handed to a validation worker and there the source init fails or
the manifest query misses the index. -/
def failsValidation (Has : archive.Index → archive.Image → Bool) (index : archive.Index)
    (inp : validateInput) : Bool :=
  match inp.NewSource with
  | .error _ => true
  | .ok src => inp.handleObject.isNone && (src.Init.isSome || !Has index src.ImageBySet)

/-- The path `p` lies under the directory `dir`. -/
def liesUnder (dir p : String) : Bool :=
  (dir.data ++ ['/']).isPrefixOf p.data

end Hangar

/-! ## Concrete inputs -/

namespace Hangar

namespace Example

/-- A value for the constant `archive.SharedBlobDir`. -/
def SharedBlobDir : String := "share"

/-- A descriptor with one platform entry in which a layer is repeated. -/
def repeatedLayer : archive.Image :=
  ⟨[⟨["sha256:aa", "sha256:aa"], "sha256:m1", "sha256:c1"⟩]⟩

/-- A descriptor with two platform entries that share a layer. -/
def sharedLayer : archive.Image :=
  ⟨[⟨["sha256:aa"], "sha256:m1", "sha256:c1"⟩, ⟨["sha256:aa"], "sha256:m2", "sha256:c2"⟩]⟩

/-- Image `a` of the dedup scenario: layers `l1`, `l2`, config `ca`. -/
def imageA : archive.Image :=
  ⟨[⟨["sha256:l1", "sha256:l2"], "sha256:ma", "sha256:ca"⟩]⟩

/-- Image `b` of the dedup scenario: the layers and the config of `a`. -/
def imageB : archive.Image :=
  ⟨[⟨["sha256:l1", "sha256:l2"], "sha256:mb", "sha256:ca"⟩]⟩

/-- A saver as `NewSaver` returns it for the given `SharedBlobDirPath` option,
with an empty failure ledger. -/
def saver (SharedBlobDirPath : String) : Except Err Saver :=
  NewSaver SharedBlobDir ⟨"", "", SharedBlobDirPath, "saved.tar.gz"⟩ (.ok ⟨[]⟩)

/-- The saver state of `NewSaver` for the option `SharedBlobDirPath = "blobs"`,
spelled out. -/
def blobsSaver : Saver :=
  ⟨⟨[]⟩, archive.NewIndex, Ledger.empty, "", "", "blobs", "saved.tar.gz", []⟩

/-- The saver state of `NewSaver` with default options, spelled out. -/
def fresh : Saver :=
  ⟨⟨[]⟩, archive.NewIndex, Ledger.empty, "", "", SharedBlobDir, "saved.tar.gz", []⟩

/-- A destination handle for the cache directory `cd`, whose reference name is
the directory. -/
def dest (cd : String) : destination.Destination :=
  ⟨cd, path.Join [cd, SharedBlobDir], cd, none⟩

/-- A job whose copy step returns `utils.ErrNoAvailableImage` (wrapped), with
an empty copied-image descriptor; `write` is what the archive writer returns. -/
def skipJob (write : error) : saveObject := {
  image := "r/p/x:1"
  source := ⟨none, some (.wrap "copy failed" .ErrNoAvailableImage), ⟨[]⟩, ⟨[]⟩⟩
  destination := some (dest "/cache/1")
  timeout := 0
  id := 1
  write := write }

/-- A job that copies the descriptor `image` into the cache directory `cd`. -/
def copyJob (id : Nat) (cd : String) (image : archive.Image) : saveObject := {
  image := "r/p/a:1"
  source := ⟨none, none, image, image⟩
  destination := some (dest cd)
  timeout := 0
  id := id
  write := none }

/-- The dispatcher input of an image that is copied without error into the
cache directory `cd`, with copied-image descriptor `image`. -/
def input (name cd : String) (image : archive.Image) : imageInput := {
  image := name
  NewSource := .ok ⟨none, none, image, image⟩
  newSaveCacheDir := .ok cd
  NewDestination := none
  ReferenceNameWithoutTransport := cd
  destinationInit := none
  handleObject := none
  write := none }

/-- The dispatcher input of the skipped image `r/p/x:1`. -/
def skipInput : imageInput := {
  image := "r/p/x:1"
  NewSource := .ok ⟨none, some (.wrap "copy failed" .ErrNoAvailableImage), ⟨[]⟩, ⟨[]⟩⟩
  newSaveCacheDir := .ok "/cache/1"
  NewDestination := none
  ReferenceNameWithoutTransport := "/cache/1"
  destinationInit := none
  handleObject := none
  write := none }

/-- An index membership test: the queried image is one of the entries. -/
def Has (index : archive.Index) (image : archive.Image) : Bool :=
  decide (image ∈ index.List)

/-- A validation input whose source handle initialises with `init` and whose
manifest query returns `image`. -/
def validation (name : String) (init : error) (image : archive.Image) : validateInput := {
  image := name
  NewSource := .ok ⟨init, none, ⟨[]⟩, image⟩
  handleObject := none }

/-- An archive reader that opens and whose index unmarshals to `index`. -/
def reader (index : archive.Index) : readerInput :=
  ⟨none, none, none, .ok index⟩

end Example

end Hangar

/-! ## Lemmas: the line-format detector -/

namespace Hangar

theorem foldl_keep_eq_filter {α : Type} (keep : α → Bool) (v : List α) (acc : List α) :
    v.foldl (fun spec s => if keep s then spec ++ [s] else spec) acc = acc ++ v.filter keep := by
  induction v generalizing acc with
  | nil => simp
  | cons x xs ih =>
    simp only [List.foldl_cons, List.filter_cons]
    rw [ih]
    by_cases h : keep x = true <;> simp [h]

theorem mirrorLoop_eq_filter (v : List (List Char)) :
    imagelist.mirrorLoop v = v.filter (fun s => !s.isEmpty) := by
  have h := foldl_keep_eq_filter (fun s : List Char => !s.isEmpty) v []
  simp only [List.nil_append] at h
  rw [← h]
  unfold imagelist.mirrorLoop
  congr 1
  funext spec s
  cases s <;> simp

theorem Split_ne_nil (sep : Char) (s : List Char) : Split sep s ≠ [] := by
  cases s with
  | nil => simp [Split]
  | cons c cs =>
    unfold Split
    split
    · simp
    · split <;> simp

theorem fieldsAux_eq_of_Split (sep : Char) (s : List Char) :
    ∀ (cur h : List Char) (t : List (List Char)), Split sep s = h :: t →
      fieldsAux (fun c => c == sep) s cur =
        (if (cur.reverse ++ h).isEmpty then [] else [cur.reverse ++ h]) ++
          t.filter (fun s => !s.isEmpty) := by
  induction s with
  | nil =>
    intro cur h t hs
    simp only [Split, List.cons.injEq] at hs
    obtain ⟨rfl, rfl⟩ := hs
    cases cur <;> simp [fieldsAux]
  | cons c cs ih =>
    intro cur h t hs
    obtain ⟨h1, t1, hcs⟩ : ∃ h1 t1, Split sep cs = h1 :: t1 := by
      cases hq : Split sep cs with
      | nil => exact absurd hq (Split_ne_nil sep cs)
      | cons a b => exact ⟨a, b, rfl⟩
    by_cases hc : c = sep
    · subst hc
      have hs2 : ([] : List Char) :: Split c cs = h :: t := by
        simpa [Split] using hs
      simp only [List.cons.injEq] at hs2
      obtain ⟨rfl, rfl⟩ := hs2
      have hrec := ih [] h1 t1 hcs
      simp only [List.reverse_nil, List.nil_append] at hrec
      have hfilter : (Split c cs).filter (fun s => !s.isEmpty) =
          (if h1.isEmpty then [] else [h1]) ++ t1.filter (fun s => !s.isEmpty) := by
        rw [hcs, List.filter_cons]
        cases h1 <;> simp
      rw [hfilter, ← hrec]
      cases cur <;> simp [fieldsAux]
    · have hs2 : (c :: h1) :: t1 = h :: t := by
        have : Split sep (c :: cs) = (c :: h1) :: t1 := by
          simp [Split, hc, hcs]
        rw [this] at hs
        exact hs
      simp only [List.cons.injEq] at hs2
      obtain ⟨rfl, rfl⟩ := hs2
      have hrec := ih (c :: cur) h1 t1 hcs
      have hp : ((fun c => c == sep) c) = false := by simpa using hc
      simp only [fieldsAux, hp]
      rw [hrec]
      simp

/-- The non-empty pieces of a split on `sep` are the fields separated by `sep`. -/
theorem filter_Split_eq_FieldsFunc (sep : Char) (s : List Char) :
    (Split sep s).filter (fun s => !s.isEmpty) = FieldsFunc (fun c => c == sep) s := by
  obtain ⟨h1, t1, hs⟩ : ∃ h1 t1, Split sep s = h1 :: t1 := by
    cases hq : Split sep s with
    | nil => exact absurd hq (Split_ne_nil sep s)
    | cons a b => exact ⟨a, b, rfl⟩
  unfold FieldsFunc
  rw [fieldsAux_eq_of_Split sep s [] h1 t1 hs, hs, List.filter_cons]
  cases h1 <;> simp

theorem fieldsAux_tokens (p : Char → Bool) (s : List Char) :
    ∀ cur : List Char, (∀ c ∈ cur, p c = false) →
      ∀ t ∈ fieldsAux p s cur, t ≠ [] ∧ ∀ c ∈ t, p c = false := by
  induction s with
  | nil =>
    intro cur hcur t ht
    cases cur with
    | nil => simp [fieldsAux] at ht
    | cons a as =>
      simp only [fieldsAux, List.isEmpty_cons, Bool.false_eq_true, if_false,
        List.mem_singleton] at ht
      subst ht
      refine ⟨by simp, ?_⟩
      intro c hc
      exact hcur c (List.mem_reverse.mp hc)
  | cons c cs ih =>
    intro cur hcur t ht
    by_cases hp : p c = true
    · cases cur with
      | nil =>
        simp only [fieldsAux, hp, if_true, List.isEmpty_nil] at ht
        exact ih [] (by simp) t ht
      | cons a as =>
        simp only [fieldsAux, hp, if_true, List.isEmpty_cons, Bool.false_eq_true, if_false,
          List.mem_cons] at ht
        rcases ht with ht | ht
        · subst ht
          refine ⟨by simp, ?_⟩
          intro x hx
          exact hcur x (List.mem_reverse.mp hx)
        · exact ih [] (by simp) t ht
    · have hp2 : p c = false := by simpa using hp
      simp only [fieldsAux, hp2, Bool.false_eq_true, if_false] at ht
      refine ih (c :: cur) ?_ t ht
      intro x hx
      rcases List.mem_cons.mp hx with h | h
      · rw [h]; exact hp2
      · exact hcur x h

/-- Every token of `FieldsFunc` is non-empty and holds no separator. -/
theorem FieldsFunc_tokens (p : Char → Bool) (s : List Char) :
    ∀ t ∈ FieldsFunc p s, t ≠ [] ∧ ∀ c ∈ t, p c = false :=
  fieldsAux_tokens p s [] (by simp)

theorem fieldsAux_congr (p q : Char → Bool) (s : List Char) :
    (∀ c ∈ s, p c = q c) → ∀ cur, fieldsAux p s cur = fieldsAux q s cur := by
  induction s with
  | nil => intro _ cur; rfl
  | cons c cs ih =>
    intro h cur
    have hc : p c = q c := h c (List.mem_cons_self c cs)
    have hcs : ∀ x ∈ cs, p x = q x := fun x hx => h x (List.mem_cons_of_mem c hx)
    simp only [fieldsAux, hc, ih hcs]

theorem fieldsAux_dropWhile (p : Char → Bool) (s : List Char) :
    fieldsAux p (s.dropWhile p) [] = fieldsAux p s [] := by
  induction s with
  | nil => rfl
  | cons c cs ih =>
    by_cases hp : p c = true
    · simp [List.dropWhile_cons, hp, fieldsAux, ih]
    · simp [List.dropWhile_cons, hp]

theorem fieldsAux_all_sep (p : Char → Bool) (b : List Char) (hb : ∀ c ∈ b, p c = true) :
    ∀ cur, fieldsAux p b cur = fieldsAux p [] cur := by
  induction b with
  | nil => intro cur; rfl
  | cons c cs ih =>
    intro cur
    have hc : p c = true := hb c (List.mem_cons_self c cs)
    have hcs : ∀ x ∈ cs, p x = true := fun x hx => hb x (List.mem_cons_of_mem c hx)
    cases cur with
    | nil => simp [fieldsAux, hc, ih hcs]
    | cons a as => simp [fieldsAux, hc, ih hcs]

theorem fieldsAux_append_sep (p : Char → Bool) (a b : List Char)
    (hb : ∀ c ∈ b, p c = true) : ∀ cur, fieldsAux p (a ++ b) cur = fieldsAux p a cur := by
  induction a with
  | nil => intro cur; exact fieldsAux_all_sep p b hb cur
  | cons c cs ih =>
    intro cur
    have e1 := ih []
    have e2 := ih (c :: cur)
    simp only [List.cons_append, fieldsAux, List.append_eq, e1, e2]

theorem FieldsFunc_trim (p : Char → Bool) (s : List Char) :
    FieldsFunc p ((s.dropWhile p).reverse.dropWhile p).reverse = FieldsFunc p s := by
  unfold FieldsFunc
  rw [← fieldsAux_dropWhile p s]
  generalize s.dropWhile p = t
  have hsplit : t = (t.reverse.dropWhile p).reverse ++ (t.reverse.takeWhile p).reverse := by
    have h := List.takeWhile_append_dropWhile p t.reverse
    have h2 := congrArg List.reverse h
    simp only [List.reverse_append, List.reverse_reverse] at h2
    exact h2.symm
  have hsep : ∀ c ∈ (t.reverse.takeWhile p).reverse, p c = true := by
    intro c hc
    exact List.mem_takeWhile_imp (List.mem_reverse.mp hc)
  conv_rhs => rw [hsplit]
  rw [fieldsAux_append_sep p _ _ hsep]

theorem mem_of_mem_TrimSpace (s : List Char) (c : Char) (h : c ∈ TrimSpace s) : c ∈ s := by
  unfold TrimSpace at h
  have h1 := List.mem_reverse.mp h
  have h2 := (List.dropWhile_sublist isSpace).subset h1
  have h3 := List.mem_reverse.mp h2
  exact (List.dropWhile_sublist isSpace).subset h3

/-- On a line whose only white-space characters are spaces, the tokens
separated by spaces are the tokens separated by white space. -/
theorem spaceTokens_eq_whitespaceTokens (line : String)
    (h : ∀ c ∈ line.data, isSpace c = true → c = ' ') :
    imagelist.spaceTokens line = imagelist.whitespaceTokens line := by
  unfold imagelist.spaceTokens imagelist.whitespaceTokens
  congr 1
  have hagree : ∀ c ∈ TrimSpace line.data, (fun c => c == ' ') c = isSpace c := by
    intro c hc
    have hmem := mem_of_mem_TrimSpace _ _ hc
    by_cases hs : isSpace c = true
    · rw [hs, h c hmem hs]; rfl
    · have hne : c ≠ ' ' := by
        intro heq
        apply hs
        rw [heq]
        decide
      simp [hne, hs]
  unfold FieldsFunc
  rw [fieldsAux_congr _ _ _ hagree []]
  exact FieldsFunc_trim isSpace line.data

theorem getMirrorSpec_eq (line : String) :
    imagelist.getMirrorSpec line =
      if (imagelist.spaceTokens line).length = 3 then (imagelist.spaceTokens line, true)
      else ([], false) := by
  unfold imagelist.getMirrorSpec imagelist.spaceTokens
  simp only [mirrorLoop_eq_filter, filter_Split_eq_FieldsFunc, List.length_map]
  by_cases h : (FieldsFunc (fun c => c == ' ') (TrimSpace line.data)).length = 3 <;> simp [h]

end Hangar

/-! ## Lemmas: the dedup step -/

namespace Hangar

theorem dedupLayer_toPair (SBD sd : String) (st : DedupState) (d : digest.Digest) :
    (dedupLayer SBD sd st d).toPair =
      referenceStep SBD sd st.toPair (BlobKind.layer, d) := by
  unfold dedupLayer referenceStep DedupState.toPair sharedBlobPath
  by_cases h : st.layersSet d = true <;> simp [h]

theorem dedupLayer_foldl_toPair (SBD sd : String) (layers : List digest.Digest)
    (st : DedupState) :
    (layers.foldl (dedupLayer SBD sd) st).toPair =
      (layers.map (fun d => (BlobKind.layer, d))).foldl (referenceStep SBD sd) st.toPair := by
  induction layers generalizing st with
  | nil => rfl
  | cons d ds ih =>
    simp only [List.foldl_cons, List.map_cons]
    rw [ih, dedupLayer_toPair]

theorem dedupImage_toPair (SBD sd : String) (st : DedupState) (e : archive.ImageSpec) :
    (dedupImage SBD sd st e).toPair =
      (entryDigests e).foldl (referenceStep SBD sd) st.toPair := by
  unfold entryDigests
  rw [List.foldl_append, List.foldl_append, ← dedupLayer_foldl_toPair]
  unfold dedupImage
  simp only [List.foldl_cons, List.foldl_nil]
  generalize e.Layers.foldl (dedupLayer SBD sd) st = st1
  by_cases hm : st1.layersSet e.Digest = true
  · by_cases hc : e.Config = ""
    · simp [referenceStep, DedupState.toPair, sharedBlobPath, hm, hc]
    · by_cases hl : st1.layersSet e.Config = true
      · simp [referenceStep, DedupState.toPair, sharedBlobPath, hm, hc, hl]
      · simp [referenceStep, DedupState.toPair, sharedBlobPath, hm, hc, hl]
  · by_cases hc : e.Config = ""
    · simp [referenceStep, DedupState.toPair, sharedBlobPath, hm, hc]
    · by_cases hl : (st1.layersSet.set e.Digest) e.Config = true
      · simp [referenceStep, DedupState.toPair, sharedBlobPath, hm, hc, hl]
      · simp [referenceStep, DedupState.toPair, sharedBlobPath, hm, hc, hl]

theorem dedupImage_foldl_toPair (SBD sd : String) (images : List archive.ImageSpec)
    (st : DedupState) :
    (images.foldl (dedupImage SBD sd) st).toPair =
      (images.flatMap entryDigests).foldl (referenceStep SBD sd) st.toPair := by
  induction images generalizing st with
  | nil => rfl
  | cons e es ih =>
    simp only [List.foldl_cons, List.flatMap_cons, List.foldl_append]
    rw [ih, dedupImage_toPair]

/-- The nested loops of the worker compute the reference fold. -/
theorem dedup_toPair (SBD sd : String) (L : Ledger) (image : archive.Image) :
    (dedup SBD sd L image).toPair = referenceDedup SBD sd L image := by
  unfold dedup referenceDedup descriptorDigests
  rw [dedupImage_foldl_toPair]
  rfl

theorem referenceStep_ledger_mono (SBD sd : String) (acc : List String × Ledger)
    (kd : BlobKind × digest.Digest) (d : digest.Digest) (h : acc.2 d = true) :
    (referenceStep SBD sd acc kd).2 d = true := by
  unfold referenceStep
  split
  · exact h
  · simp [Ledger.set, h]

theorem referenceStep_files_mono (SBD sd : String) (acc : List String × Ledger)
    (kd : BlobKind × digest.Digest) (p : String) (h : p ∈ acc.1) :
    p ∈ (referenceStep SBD sd acc kd).1 := by
  unfold referenceStep
  split
  · exact List.mem_append_left _ h
  · exact h

theorem reference_ledger_mono (SBD sd : String) (ops : List (BlobKind × digest.Digest)) :
    ∀ (acc : List String × Ledger) (d : digest.Digest), acc.2 d = true →
      (ops.foldl (referenceStep SBD sd) acc).2 d = true := by
  induction ops with
  | nil => intro acc d h; exact h
  | cons kd rest ih =>
    intro acc d h
    exact ih _ d (referenceStep_ledger_mono SBD sd acc kd d h)

theorem reference_files_mono (SBD sd : String) (ops : List (BlobKind × digest.Digest)) :
    ∀ (acc : List String × Ledger) (p : String), p ∈ acc.1 →
      p ∈ (ops.foldl (referenceStep SBD sd) acc).1 := by
  induction ops with
  | nil => intro acc p h; exact h
  | cons kd rest ih =>
    intro acc p h
    exact ih _ p (referenceStep_files_mono SBD sd acc kd p h)

/-- Every digest the fold meets is in the ledger afterwards. -/
theorem reference_mem_ledger (SBD sd : String) (ops : List (BlobKind × digest.Digest)) :
    ∀ (acc : List String × Ledger) (k : BlobKind) (d : digest.Digest), (k, d) ∈ ops →
      (ops.foldl (referenceStep SBD sd) acc).2 d = true := by
  induction ops with
  | nil => intro acc k d h; simp at h
  | cons kd rest ih =>
    intro acc k d h
    rcases List.mem_cons.mp h with h | h
    · refine reference_ledger_mono SBD sd rest (referenceStep SBD sd acc kd) d ?_
      subst h
      unfold referenceStep
      split
      · assumption
      · simp [Ledger.set]
    · exact ih _ k d h

/-- A digest that is in the ledger when the fold meets it has its shared-blob
path on the deletion list. -/
theorem reference_deleted (SBD sd : String) (ops : List (BlobKind × digest.Digest)) :
    ∀ (acc : List String × Ledger) (k : BlobKind) (d : digest.Digest), (k, d) ∈ ops →
      acc.2 d = true →
      sharedBlobPath SBD sd d ∈ (ops.foldl (referenceStep SBD sd) acc).1 := by
  induction ops with
  | nil => intro acc k d h; simp at h
  | cons kd rest ih =>
    intro acc k d h hd
    rcases List.mem_cons.mp h with h | h
    · refine reference_files_mono SBD sd rest (referenceStep SBD sd acc kd) _ ?_
      subst h
      simp [referenceStep, hd]
    · exact ih _ k d h (referenceStep_ledger_mono SBD sd acc kd d hd)

theorem occursIn_iff (d : digest.Digest) (image : archive.Image) :
    occursIn d image = true ↔ ∃ k, (k, d) ∈ descriptorDigests image := by
  unfold occursIn descriptorDigests entryDigests
  simp only [List.any_eq_true, Bool.or_eq_true, Bool.and_eq_true, decide_eq_true_eq,
    List.mem_flatMap, List.mem_append, List.mem_map, List.mem_singleton, Prod.mk.injEq]
  constructor
  · rintro ⟨e, he, h⟩
    rcases h with (h | h) | h
    · exact ⟨BlobKind.layer, e, he, Or.inl (Or.inl ⟨d, h, rfl, rfl⟩)⟩
    · exact ⟨BlobKind.manifest, e, he, Or.inl (Or.inr ⟨rfl, h⟩)⟩
    · refine ⟨BlobKind.config, e, he, Or.inr ?_⟩
      simp [h.1, h.2]
  · rintro ⟨k, e, he, h⟩
    refine ⟨e, he, ?_⟩
    rcases h with (h | h) | h
    · obtain ⟨a, ha, -, rfl⟩ := h
      exact Or.inl (Or.inl ha)
    · exact Or.inl (Or.inr h.2)
    · by_cases hc : e.Config = ""
      · rw [if_neg (not_not.mpr hc)] at h
        simp at h
      · rw [if_pos hc] at h
        simp only [List.mem_singleton, Prod.mk.injEq] at h
        exact Or.inr ⟨hc, h.2⟩

theorem dedup_ledger_mono (SBD sd : String) (L : Ledger) (image : archive.Image)
    (d : digest.Digest) (h : L d = true) : (dedup SBD sd L image).layersSet d = true := by
  have e := congrArg Prod.snd (dedup_toPair SBD sd L image)
  simp only [DedupState.toPair] at e
  rw [e]
  exact reference_ledger_mono SBD sd _ ([], L) d h

theorem dedup_mem_ledger (SBD sd : String) (L : Ledger) (image : archive.Image)
    (d : digest.Digest) (h : occursIn d image = true) :
    (dedup SBD sd L image).layersSet d = true := by
  have e := congrArg Prod.snd (dedup_toPair SBD sd L image)
  simp only [DedupState.toPair] at e
  rw [e]
  obtain ⟨k, hk⟩ := (occursIn_iff d image).mp h
  exact reference_mem_ledger SBD sd _ ([], L) k d hk

theorem dedup_deleted (SBD sd : String) (L : Ledger) (image : archive.Image)
    (d : digest.Digest) (h : occursIn d image = true) (hL : L d = true) :
    sharedBlobPath SBD sd d ∈ (dedup SBD sd L image).filesToDelete := by
  have e := congrArg Prod.fst (dedup_toPair SBD sd L image)
  simp only [DedupState.toPair] at e
  rw [e]
  obtain ⟨k, hk⟩ := (occursIn_iff d image).mp h
  exact reference_deleted SBD sd _ ([], L) k d hk hL

theorem retainsAt_eq_false_of_mem (SBD : String) (jobs : List (String × archive.Image)) :
    ∀ (L : Ledger) (i : Nat) (d : digest.Digest), L d = true →
      retainsAt SBD L jobs i d = false := by
  induction jobs with
  | nil => intro L i d _; rfl
  | cons job rest ih =>
    intro L i d hL
    cases i with
    | zero =>
      simp only [retainsAt, retains]
      by_cases ho : occursIn d job.2 = true
      · simp [dedup_deleted SBD job.1 L job.2 d ho hL]
      · simp [ho]
    | succ i =>
      simp only [retainsAt]
      exact ih _ i d (dedup_ledger_mono SBD job.1 L job.2 d hL)

theorem retainsAt_lt (SBD : String) (jobs : List (String × archive.Image)) :
    ∀ (L : Ledger) (i j : Nat) (d : digest.Digest), i < j →
      retainsAt SBD L jobs i d = true → retainsAt SBD L jobs j d = false := by
  induction jobs with
  | nil => intro L i j d _ _; rfl
  | cons job rest ih =>
    intro L i j d hij hi
    cases j with
    | zero => omega
    | succ j =>
      cases i with
      | zero =>
        simp only [retainsAt, retains, Bool.and_eq_true] at hi
        simp only [retainsAt]
        exact retainsAt_eq_false_of_mem SBD rest _ j d
          (dedup_mem_ledger SBD job.1 L job.2 d hi.1)
      | succ i =>
        simp only [retainsAt] at hi ⊢
        exact ih _ i j d (by omega) hi

end Hangar

/-! ## Lemmas: worker, dispatcher, validator -/

namespace Hangar

@[simp] theorem emit_trace (s : Saver) (e : Event) : (s.emit e).trace = s.trace ++ [e] := rfl
@[simp] theorem emit_index (s : Saver) (e : Event) : (s.emit e).index = s.index := rfl
@[simp] theorem emit_common (s : Saver) (e : Event) : (s.emit e).common = s.common := rfl
@[simp] theorem handleError_trace (s : Saver) (e : Err) :
    (s.handleError e).trace = s.trace ++ [.handleError e] := rfl
@[simp] theorem handleError_index (s : Saver) (e : Err) : (s.handleError e).index = s.index := rfl
@[simp] theorem handleError_common (s : Saver) (e : Err) :
    (s.handleError e).common = s.common := rfl
@[simp] theorem recordFailedImage_trace (s : Saver) (image : String) :
    (s.recordFailedImage image).trace = s.trace := rfl
@[simp] theorem recordFailedImage_index (s : Saver) (image : String) :
    (s.recordFailedImage image).index = s.index := rfl

theorem recordFailedImage_ne_nil (s : Saver) (image : String) :
    (s.recordFailedImage image).common.failedImageSet ≠ [] := by
  unfold Saver.recordFailedImage
  by_cases h : image ∈ s.common.failedImageSet
  · simp only [h, if_true]
    exact List.ne_nil_of_mem h
  · simp [h]

theorem removeAll_foldl (files : List String) (s : Saver) :
    files.foldl (fun s dir => s.emit (.RemoveAll dir)) s =
      { s with trace := s.trace ++ files.map Event.RemoveAll } := by
  induction files generalizing s with
  | nil => simp
  | cons f fs ih =>
    simp only [List.foldl_cons, List.map_cons]
    rw [ih]
    simp [Saver.emit]

@[simp] theorem successfulWrites_append (a b : List Event) :
    successfulWrites (a ++ b) = successfulWrites a + successfulWrites b := by
  simp [successfulWrites]

@[simp] theorem appends_append (a b : List Event) :
    appends (a ++ b) = appends a + appends b := by
  simp [appends]

@[simp] theorem successfulWrites_removeAll (files : List String) :
    successfulWrites (files.map Event.RemoveAll) = 0 := by
  induction files with
  | nil => rfl
  | cons f fs ih =>
    simp only [successfulWrites, List.map_cons] at ih ⊢
    rw [List.countP_cons, ih]
    rfl

@[simp] theorem appends_removeAll (files : List String) :
    appends (files.map Event.RemoveAll) = 0 := by
  induction files with
  | nil => rfl
  | cons f fs ih =>
    simp only [appends, List.map_cons] at ih ⊢
    rw [List.countP_cons, ih]
    rfl

theorem workerExit_spec (s : Saver) (obj : saveObject) (dest : destination.Destination)
    (err : error) :
    ∃ evs, (workerExit s obj dest err).trace = s.trace ++ evs ∧
      successfulWrites evs = 0 ∧ appends evs = 0 ∧
      (workerExit s obj dest err).index = s.index := by
  cases err with
  | none =>
    exact ⟨[.RemoveAll dest.Directory], by simp [workerExit], rfl, rfl, by simp [workerExit]⟩
  | some e =>
    exact ⟨[.handleError (.job obj.id e), .RemoveAll dest.Directory],
      by simp [workerExit], rfl, rfl, by simp [workerExit]⟩

theorem workerArchive_spec (SBD : String) (s : Saver) (obj : saveObject)
    (dest : destination.Destination) :
    ∃ evs, (workerArchive SBD s obj dest).trace = s.trace ++ evs ∧
      successfulWrites evs = (if obj.write.isSome then 0 else 1) ∧
      appends evs = (if obj.write.isSome then 0 else 1) ∧
      (workerArchive SBD s obj dest).index =
        (if obj.write.isSome then s.index else s.index.Append obj.source.GetCopiedImage) := by
  unfold workerArchive
  simp only [removeAll_foldl]
  cases hw : obj.write with
  | some e =>
    simp only
    obtain ⟨evs, ht, hs, ha, hi⟩ := workerExit_spec
      (Saver.emit { s with
          layersSet := (dedup SBD dest.ReferenceNameWithoutTransport s.layersSet
            obj.source.GetCopiedImage).layersSet,
          trace := s.trace ++ List.map Event.RemoveAll
            (dedup SBD dest.ReferenceNameWithoutTransport s.layersSet
              obj.source.GetCopiedImage).filesToDelete }
        (.Write dest.ReferenceNameWithoutTransport (some e)))
      obj dest (some (.wrap "failed to write" e))
    refine ⟨List.map Event.RemoveAll
        (dedup SBD dest.ReferenceNameWithoutTransport s.layersSet
          obj.source.GetCopiedImage).filesToDelete ++
        [.Write dest.ReferenceNameWithoutTransport (some e)] ++ evs, ?_, ?_, ?_, ?_⟩
    · rw [ht]; simp
    · rw [successfulWrites_append, successfulWrites_append, successfulWrites_removeAll, hs]
      rfl
    · rw [appends_append, appends_append, appends_removeAll, ha]
      rfl
    · rw [hi]; simp
  | none =>
    simp only
    obtain ⟨evs, ht, hs, ha, hi⟩ := workerExit_spec
      (Saver.emit { (Saver.emit { s with
          layersSet := (dedup SBD dest.ReferenceNameWithoutTransport s.layersSet
            obj.source.GetCopiedImage).layersSet,
          trace := s.trace ++ List.map Event.RemoveAll
            (dedup SBD dest.ReferenceNameWithoutTransport s.layersSet
              obj.source.GetCopiedImage).filesToDelete }
        (.Write dest.ReferenceNameWithoutTransport none)) with
          index := (Saver.emit { s with
          layersSet := (dedup SBD dest.ReferenceNameWithoutTransport s.layersSet
            obj.source.GetCopiedImage).layersSet,
          trace := s.trace ++ List.map Event.RemoveAll
            (dedup SBD dest.ReferenceNameWithoutTransport s.layersSet
              obj.source.GetCopiedImage).filesToDelete }
        (.Write dest.ReferenceNameWithoutTransport none)).index.Append obj.source.GetCopiedImage }
        (.Append obj.source.GetCopiedImage))
      obj dest none
    refine ⟨List.map Event.RemoveAll
        (dedup SBD dest.ReferenceNameWithoutTransport s.layersSet
          obj.source.GetCopiedImage).filesToDelete ++
        [.Write dest.ReferenceNameWithoutTransport none,
         .Append obj.source.GetCopiedImage] ++ evs, ?_, ?_, ?_, ?_⟩
    · rw [ht]; simp
    · rw [successfulWrites_append, successfulWrites_append, successfulWrites_removeAll, hs]
      rfl
    · rw [appends_append, appends_append, appends_removeAll, ha]
      rfl
    · rw [hi]; simp

theorem worker_object_spec (SBD : String) (s : Saver) (obj : saveObject)
    (dest : destination.Destination) (hd : obj.destination = some dest) :
    ∃ evs, (Saver.worker SBD s (.object obj)).trace = s.trace ++ evs ∧
      successfulWrites evs = (if jobFails obj dest then 0 else 1) ∧
      appends evs = (if jobFails obj dest then 0 else 1) ∧
      (Saver.worker SBD s (.object obj)).index =
        (if jobFails obj dest then s.index else s.index.Append obj.source.GetCopiedImage) := by
  have hA := workerArchive_spec SBD s obj dest
  unfold Saver.worker
  simp only [hd]
  cases hsi : obj.source.Init with
  | some e =>
    obtain ⟨evs, ht, hs, ha, hi⟩ :=
      workerExit_spec s obj dest (some (.wrap "failed to init source" e))
    exact ⟨evs, ht, by simp [jobFails, hsi, hs], by simp [jobFails, hsi, ha],
      by simp [jobFails, hsi, hi]⟩
  | none =>
    cases hdi : dest.Init with
    | some e =>
      obtain ⟨evs, ht, hs, ha, hi⟩ :=
        workerExit_spec s obj dest (some (.wrap "failed to init destination" e))
      exact ⟨evs, ht, by simp [jobFails, hdi, hs], by simp [jobFails, hdi, ha],
        by simp [jobFails, hdi, hi]⟩
    | none =>
      cases hc : obj.source.Copy with
      | some e =>
        by_cases hn : e.IsNoAvailableImage = true
        · obtain ⟨evs, ht, hs, ha, hi⟩ := hA
          simp only [hn, if_true]
          refine ⟨evs, ht, ?_, ?_, ?_⟩
          · rw [hs]; simp [jobFails, hsi, hdi, hc, hn]
          · rw [ha]; simp [jobFails, hsi, hdi, hc, hn]
          · rw [hi]; simp [jobFails, hsi, hdi, hc, hn]
        · obtain ⟨evs, ht, hs, ha, hi⟩ :=
            workerExit_spec s obj dest (some (.wrap "failed to copy" e))
          simp only [hn]
          exact ⟨evs, ht, by simp [jobFails, hc, hn, hs], by simp [jobFails, hc, hn, ha],
            by simp [jobFails, hc, hn, hi]⟩
      | none =>
        obtain ⟨evs, ht, hs, ha, hi⟩ := hA
        refine ⟨evs, ht, ?_, ?_, ?_⟩
        · rw [hs]; simp [jobFails, hsi, hdi, hc]
        · rw [ha]; simp [jobFails, hsi, hdi, hc]
        · rw [hi]; simp [jobFails, hsi, hdi, hc]

theorem Consistent.refl (s : Saver) : Consistent s s :=
  ⟨[], by simp, rfl, rfl⟩

theorem Consistent.trans {s0 s1 s2 : Saver} (h1 : Consistent s0 s1) (h2 : Consistent s1 s2) :
    Consistent s0 s2 := by
  obtain ⟨e1, t1, w1, i1⟩ := h1
  obtain ⟨e2, t2, w2, i2⟩ := h2
  refine ⟨e1 ++ e2, ?_, ?_, ?_⟩
  · rw [t2, t1, List.append_assoc]
  · rw [successfulWrites_append, appends_append, w1, w2]
  · rw [i2, i1, appends_append, Nat.add_assoc]

theorem Consistent.of_quiet {s0 s : Saver} (evs : List Event)
    (ht : s.trace = s0.trace ++ evs) (hw : successfulWrites evs = 0)
    (ha : appends evs = 0) (hi : s.index = s0.index) : Consistent s0 s :=
  ⟨evs, ht, by rw [hw, ha], by rw [hi, ha]; rfl⟩

theorem worker_consistent (SBD : String) (s : Saver) (o : Payload) :
    Consistent s (Saver.worker SBD s o) := by
  cases o with
  | nil => exact Consistent.refl s
  | other => exact Consistent.refl s
  | object obj =>
    cases hd : obj.destination with
    | none =>
      have : Saver.worker SBD s (.object obj) = s := by
        unfold Saver.worker
        simp only [hd]
      rw [this]
      exact Consistent.refl s
    | some dest =>
      obtain ⟨evs, ht, hs, ha, hi⟩ := worker_object_spec SBD s obj dest hd
      refine ⟨evs, ht, by rw [hs, ha], ?_⟩
      rw [hi, ha]
      by_cases hf : jobFails obj dest = true
      · simp [hf]
      · simp [hf, archive.Index.Append]

theorem copyImage_consistent (SBD : String) (s : Saver) (i : Nat) (inp : imageInput) :
    Consistent s (copyImage SBD s i inp) := by
  unfold copyImage
  cases inp.NewSource with
  | error err =>
    exact Consistent.of_quiet [.handleError (.wrap "failed to init source image" err)]
      (by simp) rfl rfl (by simp)
  | ok src =>
    cases inp.newSaveCacheDir with
    | error err =>
      exact Consistent.of_quiet
        [.handleError (.wrap "failed to create cache dir" (.wrap "os.MkdirTemp" err)),
         .RemoveAll ""]
        (by simp) rfl rfl (by simp)
    | ok cd =>
      cases inp.NewDestination with
      | some err =>
        exact Consistent.of_quiet
          [.handleError (.wrap "failed to init dest image" err), .RemoveAll cd]
          (by simp) rfl rfl (by simp)
      | none =>
        cases inp.handleObject with
        | some err =>
          exact Consistent.of_quiet [.RemoveAll cd] (by simp) rfl rfl (by simp)
        | none => exact worker_consistent SBD s _

theorem copyLoop_consistent (SBD : String) (images : List imageInput) :
    ∀ (s : Saver) (i : Nat), Consistent s (copyLoop SBD s i images) := by
  induction images with
  | nil => intro s i; exact Consistent.refl s
  | cons inp rest ih =>
    intro s i
    exact Consistent.trans (copyImage_consistent SBD s i inp) (ih _ (i + 1))

theorem copy_consistent (SBD : String) (s : Saver) (images : List imageInput)
    (writeIndex close : error) : Consistent s (s.copy SBD images writeIndex close) := by
  refine Consistent.trans (copyLoop_consistent SBD images s 0) ?_
  exact Consistent.of_quiet
    [.WriteIndex (copyLoop SBD s 0 images).index writeIndex, .Close close]
    (by simp [Saver.copy]) rfl rfl (by simp [Saver.copy])

theorem Run_consistent (SBD : String) (s : Saver) (NewWriter : error)
    (images : List imageInput) (writeIndex close : error) :
    Consistent s (s.Run SBD NewWriter images writeIndex close).1 := by
  unfold Saver.Run
  cases NewWriter with
  | some err => exact Consistent.refl s
  | none =>
    simp only
    split <;> exact copy_consistent SBD s images writeIndex close

theorem validateWorker_index (Has : archive.Index → archive.Image → Bool) (s : Saver)
    (o : Payload) : (Saver.validateWorker Has s o).index = s.index := by
  unfold Saver.validateWorker
  cases o with
  | nil => rfl
  | other => rfl
  | object obj =>
    simp only
    cases obj.source.Init with
    | some err => simp
    | none =>
      simp only
      split <;> simp

theorem validateImage_index (Has : archive.Index → archive.Image → Bool) (s : Saver)
    (i : Nat) (inp : validateInput) : (validateImage Has s i inp).index = s.index := by
  unfold validateImage
  cases inp.NewSource with
  | error err => simp
  | ok src =>
    simp only
    cases inp.handleObject with
    | some err => rfl
    | none => exact validateWorker_index Has s _

theorem validateImage_failed (Has : archive.Index → archive.Image → Bool) (s : Saver)
    (i : Nat) (inp : validateInput) :
    (validateImage Has s i inp).common.failedImageSet ≠ [] ↔
      (s.common.failedImageSet ≠ [] ∨ failsValidation Has s.index inp = true) := by
  unfold validateImage failsValidation
  cases inp.NewSource with
  | error err =>
    simp only [or_true, iff_true]
    exact recordFailedImage_ne_nil _ _
  | ok src =>
    simp only
    cases inp.handleObject with
    | some err => simp
    | none =>
      unfold Saver.validateWorker
      simp only
      cases hsi : src.Init with
      | some err =>
        simp only [Option.isNone_none, Option.isSome_some, Bool.true_or, Bool.and_self,
          or_true, iff_true]
        exact recordFailedImage_ne_nil _ _
      | none =>
        simp only
        by_cases hh : Has s.index src.ImageBySet = true
        · simp [hh]
        · simp only [hh, Bool.not_false, if_true, Option.isNone_none, Option.isSome_none,
            Bool.false_or, Bool.and_self, or_true, iff_true]
          exact recordFailedImage_ne_nil _ _

theorem validateLoop_spec (Has : archive.Index → archive.Image → Bool)
    (images : List validateInput) :
    ∀ (s : Saver) (i : Nat),
      (validateLoop Has s i images).index = s.index ∧
      ((validateLoop Has s i images).common.failedImageSet ≠ [] ↔
        (s.common.failedImageSet ≠ [] ∨
          ∃ inp ∈ images, failsValidation Has s.index inp = true)) := by
  induction images with
  | nil => intro s i; simp [validateLoop]
  | cons inp rest ih =>
    intro s i
    obtain ⟨hidx, hfail⟩ := ih (validateImage Has s i inp) (i + 1)
    simp only [validateLoop]
    refine ⟨by rw [hidx, validateImage_index], ?_⟩
    rw [hfail, validateImage_failed, validateImage_index]
    simp only [List.mem_cons, exists_eq_or_imp]
    tauto

end Hangar

/-! ## Main theorems -/

namespace Hangar

open Example in
/-- C1 (file-elision rule), evaluated on a descriptor with a repeated digest:
starting from the empty ledger, the layer digest `sha256:aa` is not in the
ledger before the dedup step and is in it afterwards, yet its shared-blob path
is on the deletion list, both when the layer is repeated inside one platform
entry and when two platform entries share it; the worker removes that path
before it calls the archive writer. -/
theorem dedup_deletes_repeated_digest :
    Ledger.empty "sha256:aa" = false ∧
    occursIn "sha256:aa" repeatedLayer = true ∧
    (dedup SharedBlobDir "/cache/1" Ledger.empty repeatedLayer).layersSet "sha256:aa" = true ∧
    sharedBlobPath SharedBlobDir "/cache/1" "sha256:aa" = "/cache/1/share/sha256/aa" ∧
    (dedup SharedBlobDir "/cache/1" Ledger.empty repeatedLayer).filesToDelete =
      ["/cache/1/share/sha256/aa"] ∧
    retains SharedBlobDir "/cache/1"
      (dedup SharedBlobDir "/cache/1" Ledger.empty repeatedLayer).filesToDelete
      repeatedLayer "sha256:aa" = false ∧
    occursIn "sha256:aa" sharedLayer = true ∧
    (dedup SharedBlobDir "/cache/1" Ledger.empty sharedLayer).filesToDelete =
      ["/cache/1/share/sha256/aa"] ∧
    (Saver.worker SharedBlobDir fresh (.object (copyJob 1 "/cache/1" repeatedLayer))).trace =
      [.RemoveAll "/cache/1/share/sha256/aa", .Write "/cache/1" none,
       .Append repeatedLayer, .RemoveAll "/cache/1"] := by
  decide

/-- C2 (dedup soundness): starting from the empty ledger, for every sequence of
jobs (staging directory and copied-image descriptor) that the dedup step of the
save worker processes one after another, no digest is retained by two different
jobs, where a job retains a digest when the digest occurs in its descriptor and
the digest's shared-blob path is not in the job's deletion list. -/
theorem dedup_soundness (SharedBlobDir : String) (jobs : List (String × archive.Image))
    (d : digest.Digest) (i j : Nat) (hij : i ≠ j) :
    ¬ (retainsAt SharedBlobDir Ledger.empty jobs i d = true ∧
       retainsAt SharedBlobDir Ledger.empty jobs j d = true) := by
  rintro ⟨hi, hj⟩
  rcases Nat.lt_or_gt_of_ne hij with h | h
  · have := retainsAt_lt SharedBlobDir jobs Ledger.empty i j d h hi
    rw [hj] at this
    exact Bool.noConfusion this
  · have := retainsAt_lt SharedBlobDir jobs Ledger.empty j i d h hj
    rw [hi] at this
    exact Bool.noConfusion this

open Example in
/-- Witness of `dedup_soundness`: of two jobs with the same layers, the first
retains the layer `sha256:l1` and, by the theorem, the two do not both retain it. -/
theorem dedup_soundness_witness :
    (0 : Nat) ≠ 1 ∧
    retainsAt SharedBlobDir Ledger.empty [("/cache/1", imageA), ("/cache/2", imageB)] 0
      "sha256:l1" = true ∧
    ¬ (retainsAt SharedBlobDir Ledger.empty [("/cache/1", imageA), ("/cache/2", imageB)] 0
        "sha256:l1" = true ∧
       retainsAt SharedBlobDir Ledger.empty [("/cache/1", imageA), ("/cache/2", imageB)] 1
        "sha256:l1" = true) :=
  ⟨by decide, by decide,
    dedup_soundness SharedBlobDir [("/cache/1", imageA), ("/cache/2", imageB)] "sha256:l1" 0 1
      (by decide)⟩

open Example in
/-- C3 (recoverable skip), evaluated on a job whose copy step returns
`utils.ErrNoAvailableImage`: the worker does not return after the "Skip save
image" warning; it calls the archive writer's `Write` for the job and, when the
write succeeds, appends the (empty) descriptor to the index; when the write
fails, the image is recorded in the failure ledger.  The same happens to the
one-image list of the dispatcher: after `Run` the index has one entry. -/
theorem worker_skip_still_writes :
    Err.IsNoAvailableImage (.wrap "copy failed" .ErrNoAvailableImage) = true ∧
    (Saver.worker SharedBlobDir fresh (.object (skipJob none))).trace =
      [.Write "/cache/1" none, .Append ⟨[]⟩, .RemoveAll "/cache/1"] ∧
    fresh.index = ⟨[]⟩ ∧
    (Saver.worker SharedBlobDir fresh (.object (skipJob none))).index = ⟨[⟨[]⟩]⟩ ∧
    (Saver.worker SharedBlobDir fresh (.object (skipJob none))).common.failedImageSet = [] ∧
    (Saver.worker SharedBlobDir fresh (.object (skipJob (some (.external "disk full"))))).trace =
      [.Write "/cache/1" (some (.external "disk full")),
       .handleError (.job 1 (.wrap "failed to write" (.external "disk full"))),
       .RemoveAll "/cache/1"] ∧
    (Saver.worker SharedBlobDir fresh
      (.object (skipJob (some (.external "disk full"))))).common.failedImageSet = ["r/p/x:1"] ∧
    (fresh.Run SharedBlobDir none [skipInput] none none).1.index = ⟨[⟨[]⟩]⟩ ∧
    (fresh.Run SharedBlobDir none [skipInput] none none).2 = none := by
  decide

/-- C4 (exit behaviour of `Saver.Run`): when `archive.NewWriter` fails with
`e`, `Run` returns the setup error wrapping `e` and runs no copy phase (the
saver, its trace included, is unchanged).  Otherwise `Run` returns a non-nil
error exactly when the failure ledger is non-empty after the copy phase, and
nil exactly when it is empty; the result is the same whatever the index write
and the archive close return; and these two teardown calls are the last two
events of the run, after everything the dispatcher loop and the workers did. -/
theorem Run_exit_behaviour (SharedBlobDir : String) (s : Saver) (images : List imageInput)
    (e : Err) (writeIndex close writeIndex2 close2 : error) :
    s.Run SharedBlobDir (some e) images writeIndex close =
      (s, some (.wrap "failed to create archive" e)) ∧
    ((s.Run SharedBlobDir none images writeIndex close).2 ≠ none ↔
      (s.Run SharedBlobDir none images writeIndex close).1.common.failedImageSet ≠ []) ∧
    ((s.Run SharedBlobDir none images writeIndex close).2 = none ↔
      (s.Run SharedBlobDir none images writeIndex close).1.common.failedImageSet = []) ∧
    (s.Run SharedBlobDir none images writeIndex close).1.common.failedImageSet =
      (copyLoop SharedBlobDir s 0 images).common.failedImageSet ∧
    (s.Run SharedBlobDir none images writeIndex close).2 =
      (s.Run SharedBlobDir none images writeIndex2 close2).2 ∧
    (s.Run SharedBlobDir none images writeIndex close).1.trace =
      (copyLoop SharedBlobDir s 0 images).trace ++
        [.WriteIndex (copyLoop SharedBlobDir s 0 images).index writeIndex, .Close close] := by
  have hc : ∀ wi cl : error, (s.copy SharedBlobDir images wi cl).common =
      (copyLoop SharedBlobDir s 0 images).common := fun _ _ => rfl
  have ht : ∀ wi cl : error, (s.copy SharedBlobDir images wi cl).trace =
      (copyLoop SharedBlobDir s 0 images).trace ++
        [.WriteIndex (copyLoop SharedBlobDir s 0 images).index wi, .Close cl] := by
    intro wi cl
    simp [Saver.copy]
  refine ⟨rfl, ?_, ?_, ?_, ?_, ?_⟩
  · unfold Saver.Run
    by_cases h : (copyLoop SharedBlobDir s 0 images).common.failedImageSet = []
    · simp [hc, h]
    · simp [hc, h]
  · unfold Saver.Run
    by_cases h : (copyLoop SharedBlobDir s 0 images).common.failedImageSet = []
    · simp [hc, h]
    · simp [hc, h]
  · unfold Saver.Run
    simp only [hc]
    split <;> exact congrArg common.failedImageSet (hc _ _)
  · unfold Saver.Run
    simp only [hc]
    split <;> rfl
  · unfold Saver.Run
    simp only [hc]
    split <;> exact ht _ _

open Example in
/-- C5 as stated fails: one image whose manifest query result is in the index
(no query misses the index), but whose source `Init` fails: `Validate` returns
an error and the image is in the failure ledger. -/
theorem Validate_error_without_index_miss :
    [validation "r/p/a:1" (some (.external "timeout")) imageA].any
      (queryMisses Has ⟨[imageA]⟩) = false ∧
    (fresh.Validate Has (reader ⟨[imageA]⟩)
      [validation "r/p/a:1" (some (.external "timeout")) imageA]).2 =
      some (.errorf "some images failed to validate") ∧
    (fresh.Validate Has (reader ⟨[imageA]⟩)
      [validation "r/p/a:1" (some (.external "timeout")) imageA]).1.common.failedImageSet =
      ["r/p/a:1"] := by
  decide

/-- C5 (amended): once the archive has been opened and its index unmarshalled,
and starting from an empty failure ledger, `Saver.Validate` returns an error if
and only if at least one image of the input list fails validation: its source
handle cannot be constructed, or it is handed to a validation worker and there
the source `Init` fails or the manifest query misses the index.  In particular
`Validate` returns nil when no image of the list fails validation. -/
theorem Validate_error_iff_failed_image (Has : archive.Index → archive.Image → Bool)
    (s : Saver) (ar : readerInput) (index : archive.Index) (images : List validateInput)
    (hempty : s.common.failedImageSet = []) (hopen : ar.NewReader = none)
    (hread : ar.Index = none) (hload : ar.Unmarshal = .ok index) :
    ((s.Validate Has ar images).2 ≠ none ↔
      ∃ inp ∈ images, failsValidation Has index inp = true) ∧
    ((s.Validate Has ar images).2 = none ↔
      ∀ inp ∈ images, failsValidation Has index inp = false) := by
  have hspec := (validateLoop_spec Has images { s with index := index } 0).2
  have hiff : (validateLoop Has { s with index := index } 0 images).common.failedImageSet ≠ [] ↔
      ∃ inp ∈ images, failsValidation Has index inp = true := by
    rw [hspec]
    simp [hempty]
  unfold Saver.Validate
  simp only [hopen, hread, hload, Saver.validate]
  by_cases h : (validateLoop Has { s with index := index } 0 images).common.failedImageSet = []
  · have hno : ¬ ∃ inp ∈ images, failsValidation Has index inp = true :=
      fun hex => (hiff.mpr hex) h
    constructor
    · simp only [h, List.length_nil, ne_eq, not_true_eq_false, if_false]
      constructor
      · intro hc; exact hc.elim
      · intro hex; exact absurd hex hno
    · simp only [h, List.length_nil, ne_eq, not_true_eq_false, if_false, true_iff]
      intro inp hin
      by_contra hc
      exact hno ⟨inp, hin, by simpa using hc⟩
  · have hyes := hiff.mp h
    have hlen : (validateLoop Has { s with index := index } 0 images).common.failedImageSet.length
        ≠ 0 := by
      simpa [List.length_eq_zero] using h
    constructor
    · simp only [hlen, ne_eq, not_false_eq_true, if_true]
      constructor
      · intro _; exact hyes
      · intro _ hc; exact Option.noConfusion hc
    · simp only [hlen, ne_eq, not_false_eq_true, if_true]
      constructor
      · intro hc; exact Option.noConfusion hc
      · intro hall
        obtain ⟨inp, hin, hf⟩ := hyes
        rw [hall inp hin] at hf
        exact Bool.noConfusion hf

open Example in
/-- Witness of `Validate_error_iff_failed_image`: an index holding image `a`,
validated against the list `a`, `c`: the query of `c` misses the index and
`Validate` returns an error. -/
theorem Validate_error_iff_failed_image_witness :
    fresh.common.failedImageSet = [] ∧
    failsValidation Has ⟨[imageA]⟩ (validation "r/p/c:1" none imageB) = true ∧
    (fresh.Validate Has (reader ⟨[imageA]⟩)
      [validation "r/p/a:1" none imageA, validation "r/p/c:1" none imageB]).2 ≠ none :=
  ⟨rfl, by decide,
    (Validate_error_iff_failed_image Has fresh (reader ⟨[imageA]⟩) ⟨[imageA]⟩
      [validation "r/p/a:1" none imageA, validation "r/p/c:1" none imageB]
      rfl rfl rfl rfl).1.mpr
      ⟨validation "r/p/c:1" none imageB, by simp, by decide⟩⟩

/-- C6 (index consistency).  One job, from any saver state: the events of the
worker hold as many index appends as successful archive writes; that number is
0 when the job fails at source init, destination init, copy or archive write,
and 1 otherwise; and the index afterwards is the index before with the job's
descriptor appended when the write succeeded, and the index before otherwise.
A whole run of `Saver.Run`, from any saver state: the index grows by exactly
the number of successful archive writes of the run, which is the number of its
index appends.  From the state `NewSaver` returns, the number of index entries
after the run equals the number of successful archive writes. -/
theorem index_consistency (SharedBlobDir : String) :
    (∀ (s : Saver) (obj : saveObject) (dest : destination.Destination),
      ∃ evs,
        (Saver.worker SharedBlobDir s (.object { obj with destination := some dest })).trace =
          s.trace ++ evs ∧
        appends evs = successfulWrites evs ∧
        successfulWrites evs = (if jobFails obj dest then 0 else 1) ∧
        (Saver.worker SharedBlobDir s (.object { obj with destination := some dest })).index =
          (if successfulWrites evs = 1 then s.index.Append obj.source.GetCopiedImage
           else s.index)) ∧
    (∀ (s : Saver) (NewWriter : error) (images : List imageInput) (writeIndex close : error),
      ∃ evs,
        (s.Run SharedBlobDir NewWriter images writeIndex close).1.trace = s.trace ++ evs ∧
        appends evs = successfulWrites evs ∧
        (s.Run SharedBlobDir NewWriter images writeIndex close).1.index.List.length =
          s.index.List.length + successfulWrites evs) ∧
    (∀ (o : SaverOpts) (c : common) (NewWriter : error) (images : List imageInput)
        (writeIndex close : error),
      ∃ s, NewSaver SharedBlobDir o (.ok c) = .ok s ∧
        (s.Run SharedBlobDir NewWriter images writeIndex close).1.index.List.length =
          successfulWrites (s.Run SharedBlobDir NewWriter images writeIndex close).1.trace ∧
        appends (s.Run SharedBlobDir NewWriter images writeIndex close).1.trace =
          successfulWrites (s.Run SharedBlobDir NewWriter images writeIndex close).1.trace) := by
  refine ⟨?_, ?_, ?_⟩
  · intro s obj dest
    obtain ⟨evs, ht, hs, ha, hi⟩ :=
      worker_object_spec SharedBlobDir s { obj with destination := some dest } dest rfl
    have hf : jobFails { obj with destination := some dest } dest = jobFails obj dest := rfl
    rw [hf] at hs ha hi
    refine ⟨evs, ht, by rw [hs, ha], hs, ?_⟩
    rw [hi, hs]
    by_cases h : jobFails obj dest = true <;> simp [h]
  · intro s NewWriter images writeIndex close
    obtain ⟨evs, ht, hw, hi⟩ := Run_consistent SharedBlobDir s NewWriter images writeIndex close
    exact ⟨evs, ht, hw.symm, by rw [hi, hw]⟩
  · intro o c NewWriter images writeIndex close
    refine ⟨_, rfl, ?_⟩
    obtain ⟨evs, ht, hw, hi⟩ := Run_consistent SharedBlobDir
      { common := c, index := archive.NewIndex, layersSet := Ledger.empty,
        SourceRegistry := o.SourceRegistry, SourceProject := o.SourceProject,
        SharedBlobDirPath := if o.SharedBlobDirPath = "" then SharedBlobDir
          else o.SharedBlobDirPath,
        ArchiveName := o.ArchiveName, trace := [] }
      NewWriter images writeIndex close
    rw [hi, ht]
    simp [archive.NewIndex, hw, successfulWrites, appends] at hw ⊢
    exact hw.symm

open imagelist in
/-- C7 as stated fails: a line of three tokens separated by tabs is not
detected as mirror format, and a line of four white-space separated tokens of
which two are separated by a tab is. -/
theorem mirror_format_tab_separated :
    whitespaceTokens "a/mysql\tb/mysql\tlatest" = ["a/mysql", "b/mysql", "latest"] ∧
    IsMirrorFormat "a/mysql\tb/mysql\tlatest" = false ∧
    Detect "a/mysql\tb/mysql\tlatest" = TypeDefault ∧
    whitespaceTokens "a/mysql b/mysql\t1.0 latest" = ["a/mysql", "b/mysql", "1.0", "latest"] ∧
    IsMirrorFormat "a/mysql b/mysql\t1.0 latest" = true ∧
    Detect "a/mysql b/mysql\t1.0 latest" = TypeMirror ∧
    GetMirrorSpec "a/mysql b/mysql\t1.0 latest" = (["a/mysql", "b/mysql\t1.0", "latest"], true) := by
  decide

open imagelist in
/-- C7 (amended): for every line, `IsMirrorFormat` is true, and `Detect`
returns `TypeMirror`, if and only if the line, trimmed of surrounding white
space, consists of exactly three non-empty tokens separated by runs of the
space character U+0020 (any other white-space character inside the line is
part of a token); `GetMirrorSpec` then returns those tokens in order, and
`(nil, false)` otherwise.  Each such token is non-empty and holds no space, and
on a line whose only white-space characters are spaces these tokens are the
white-space separated tokens of the line. -/
theorem mirror_format_space_separated (line : String) :
    (IsMirrorFormat line = true ↔ (spaceTokens line).length = 3) ∧
    (Detect line = TypeMirror ↔ (spaceTokens line).length = 3) ∧
    GetMirrorSpec line =
      (if (spaceTokens line).length = 3 then (spaceTokens line, true) else ([], false)) ∧
    (∀ t ∈ spaceTokens line, t ≠ "" ∧ ' ' ∉ t.data) ∧
    ((∀ c ∈ line.data, isSpace c = true → c = ' ') →
      spaceTokens line = whitespaceTokens line) := by
  have hm : IsMirrorFormat line = true ↔ (spaceTokens line).length = 3 := by
    unfold IsMirrorFormat
    rw [getMirrorSpec_eq]
    by_cases h : (spaceTokens line).length = 3 <;> simp [h]
  refine ⟨hm, ?_, getMirrorSpec_eq line, ?_, spaceTokens_eq_whitespaceTokens line⟩
  · unfold Detect
    unfold IsMirrorFormat at hm
    by_cases h : (getMirrorSpec line).2 = true
    · simp only [h, if_true, true_iff]
      exact hm.mp h
    · have h3 : ¬ (spaceTokens line).length = 3 := fun h3 => h (hm.mpr h3)
      simp only [h, Bool.false_eq_true, if_false, h3, iff_false]
      split <;> decide
  · intro t ht
    unfold spaceTokens at ht
    obtain ⟨cs, hcs, rfl⟩ := List.mem_map.mp ht
    obtain ⟨hne, hsp⟩ := FieldsFunc_tokens _ _ cs hcs
    refine ⟨?_, ?_⟩
    · intro h
      apply hne
      have := congrArg String.data h
      simpa using this
    · intro hmem
      have := hsp ' ' hmem
      simp at this

open imagelist in
/-- Witness of `mirror_format_space_separated`: a line of three tokens
separated by one or two spaces is in mirror format, and its tokens are its
white-space separated tokens. -/
theorem mirror_format_space_separated_witness :
    (∀ c ∈ "a/mysql  b/mysql latest".data, isSpace c = true → c = ' ') ∧
    IsMirrorFormat "a/mysql  b/mysql latest" = true ∧
    spaceTokens "a/mysql  b/mysql latest" = whitespaceTokens "a/mysql  b/mysql latest" :=
  ⟨by decide,
    (mirror_format_space_separated "a/mysql  b/mysql latest").1.mpr (by decide),
    (mirror_format_space_separated "a/mysql  b/mysql latest").2.2.2.2 (by decide)⟩

open imagelist in
/-- C8 (default-format detection), evaluated on lines of two white-space
separated tokens: `Detect` returns `TypeDefault` for them, because
`isDefaultFormat` skips the path segment that holds the space and keeps the
others. -/
theorem Detect_default_on_two_tokens :
    whitespaceTokens "docker.io/library/nginx 1.22" = ["docker.io/library/nginx", "1.22"] ∧
    GetMirrorSpec "docker.io/library/nginx 1.22" = ([], false) ∧
    isDefaultFormat "docker.io/library/nginx 1.22" = true ∧
    Detect "docker.io/library/nginx 1.22" = TypeDefault ∧
    whitespaceTokens "a/b c/d" = ["a/b", "c/d"] ∧
    Detect "a/b c/d" = TypeDefault ∧
    Detect "nginx latest" = TypeUnknow ∧
    Detect "   " = TypeUnknow := by
  decide

open Example in
/-- C9 (configured shared-blob directory), evaluated with the option
`SharedBlobDirPath = "blobs"` and the constant `archive.SharedBlobDir = "share"`:
the saver keeps the option, the dispatcher configures the destination of the
second job with the shared-blob directory `/cache/2/blobs`, and the dedup step
of the worker puts the duplicates of that job on the deletion list under
`/cache/2/share`, built from the constant; these paths do not lie under the
configured directory.  With the empty option the saver uses the constant. -/
theorem dedup_paths_ignore_SharedBlobDirPath :
    saver "blobs" = .ok blobsSaver ∧
    blobsSaver.SharedBlobDirPath = "blobs" ∧
    path.Join ["/cache/2", blobsSaver.SharedBlobDirPath] = "/cache/2/blobs" ∧
    (blobsSaver.Run SharedBlobDir none
        [input "r/p/a:1" "/cache/1" imageA, input "r/p/b:1" "/cache/2" imageB]
        none none).1.trace =
      [.Write "/cache/1" none, .Append imageA, .RemoveAll "/cache/1",
       .RemoveAll "/cache/2/share/sha256/l1", .RemoveAll "/cache/2/share/sha256/l2",
       .RemoveAll "/cache/2/share/sha256/ca",
       .Write "/cache/2" none, .Append imageB, .RemoveAll "/cache/2",
       .WriteIndex ⟨[imageA, imageB]⟩ none, .Close none] ∧
    liesUnder "/cache/2/blobs" "/cache/2/share/sha256/l1" = false ∧
    liesUnder "/cache/2/blobs" "/cache/2/share/sha256/l2" = false ∧
    liesUnder "/cache/2/blobs" "/cache/2/share/sha256/ca" = false ∧
    saver "" = .ok fresh ∧
    fresh.SharedBlobDirPath = SharedBlobDir :=
  ⟨rfl, rfl, by decide, by decide, by decide, by decide, by decide, rfl, rfl⟩

/-- C10 (precise semantics of the dedup step): for every ledger `L` and every
copied-image descriptor, the deletion list and the ledger that the nested loops
of the save worker compute are those of the reference fold over the platform
entries in order (layers in layer order, then the manifest digest, then the
non-empty config digest; a digest in the running ledger appends its shared-blob
path, the manifest digest also `<staging>/<encoded>`; a digest not in it is
inserted), with `archive.SharedBlobDir` as shared-blob directory; and every
digest of `L` is in the ledger after the step. -/
theorem dedup_eq_referenceDedup (SharedBlobDir staging : String) (L : Ledger)
    (image : archive.Image) :
    ((dedup SharedBlobDir staging L image).filesToDelete,
      (dedup SharedBlobDir staging L image).layersSet) =
        referenceDedup SharedBlobDir staging L image ∧
    (∀ d, L d = true → (dedup SharedBlobDir staging L image).layersSet d = true) :=
  ⟨dedup_toPair SharedBlobDir staging L image,
    fun d h => dedup_ledger_mono SharedBlobDir staging L image d h⟩

open Example in
/-- Witness of `dedup_eq_referenceDedup`: image `b` deduplicated against the
ledger left by image `a`. -/
theorem dedup_eq_referenceDedup_witness :
    (dedup SharedBlobDir "/cache/1" Ledger.empty imageA).layersSet "sha256:l1" = true ∧
    (referenceDedup SharedBlobDir "/cache/2"
      (dedup SharedBlobDir "/cache/1" Ledger.empty imageA).layersSet imageB).1 =
      ["/cache/2/share/sha256/l1", "/cache/2/share/sha256/l2", "/cache/2/share/sha256/ca"] ∧
    (dedup SharedBlobDir "/cache/2"
      (dedup SharedBlobDir "/cache/1" Ledger.empty imageA).layersSet imageB).layersSet
      "sha256:l1" = true :=
  ⟨by decide, by decide,
    (dedup_eq_referenceDedup SharedBlobDir "/cache/2"
      (dedup SharedBlobDir "/cache/1" Ledger.empty imageA).layersSet imageB).2
      "sha256:l1" (by decide)⟩

end Hangar
